import Mathlib

/-!
Verification of the core simulation layer of the portfolio sailing scene:
the generic object pool (`src/utils/ObjectPool.ts`), the ship's stamina
and boost state machine (`src/entities/Ship.ts`), the buoyancy submersion
ratio of ship and chest (`src/entities/Ship.ts`, `src/entities/Chest.ts`),
the Gerstner wave field (`src/utils/GerstnerWater.ts`), the link-opening
bottle trigger (`src/world.ts`, `src/entities/Bottle.ts`) and the chest
position setter (`src/entities/Chest.ts`).

Each definition is a shallow embedding of the corresponding TypeScript
function; machine numbers are modelled by `ℚ` where the code branches on
comparisons (so the definitions stay executable) and by `ℝ` for the
analytic wave/buoyancy formulas.
-/

namespace Portfolio

/-! ### ObjectPool (`src/utils/ObjectPool.ts`)

A pooled object is abstracted by its construction index (`id`, the order
in which the factory produced it) and its `active` flag.  `reset`,
`update` and position changes of the concrete `Chest`/`Island` members
touch neither of these two fields, so they are the identity on this
abstraction; `activate`/`deactivate` set and clear `active`. -/

structure PoolObj where
  id : Nat
  active : Bool
deriving DecidableEq, Repr

structure PoolState where
  pool : List PoolObj
  /-- Number of instances the factory has constructed so far (also the next id). -/
  created : Nat
  maxSize : Nat
deriving DecidableEq, Repr

/-- Constructor of `ObjectPool(factory, initialSize, maxSize)`: pre-populates
the pool with `initialSize` fresh, deactivated instances. -/
def poolInit (initialSize maxSize : Nat) : PoolState :=
  { pool := (List.range initialSize).map (fun i => { id := i, active := false })
    created := initialSize
    maxSize := maxSize }

/-- The `this.pool.find(obj => !obj.isActive())` step of `get()`, fused with
the subsequent `inactiveObj.activate()`: activates the first inactive member
in insertion order and returns it together with the updated pool, or `none`
when every member is active. -/
def activateFirstInactive : List PoolObj → Option (PoolObj × List PoolObj)
  | [] => none
  | o :: rest =>
    if o.active then
      match activateFirstInactive rest with
      | some (r, rest') => some (r, o :: rest')
      | none => none
    else
      some ({ o with active := true }, { o with active := true } :: rest)

/-- Embedding of `ObjectPool.get()`.  Returns `none` exactly when the TypeScript code
would throw (empty pool with `maxSize = 0`, where `this.pool[0]` is
`undefined`); otherwise returns the delivered object and the new state.
`reset()` followed by `activate()` on the abstraction is `active := true`. -/
def ObjectPool.get (s : PoolState) : Option (PoolObj × PoolState) :=
  match activateFirstInactive s.pool with
  | some (r, pool') => some (r, { s with pool := pool' })
  | none =>
    if s.pool.length < s.maxSize then
      some ({ id := s.created, active := true },
        { s with pool := s.pool ++ [{ id := s.created, active := true }]
                 created := s.created + 1 })
    else
      match s.pool with
      | [] => none
      | o :: rest =>
        some ({ o with active := true },
          { s with pool := rest ++ [{ o with active := true }] })

/-- The state after one `get()` call (unchanged when the call throws). -/
def stepGet (s : PoolState) : PoolState :=
  match ObjectPool.get s with
  | some (_, s') => s'
  | none => s

/-- The object returned by one `get()` call on state `s`. -/
def retGet (s : PoolState) : Option PoolObj :=
  (ObjectPool.get s).map Prod.fst

/-- State after `n` consecutive `get()` calls. -/
def iterGet (s : PoolState) : Nat → PoolState
  | 0 => s
  | n + 1 => stepGet (iterGet s n)

/-- Embedding of `ObjectPool.update(dt)`: calls `obj.update(dt)` on every active member.
Member updates (`Chest.update`/`Island.update`) never change the activation
flag nor the identity, so they are the identity on the abstraction. -/
def ObjectPool.update (s : PoolState) : PoolState :=
  { s with pool := s.pool.map (fun o => if o.active then o else o) }

/-- Embedding of `ObjectPool.releaseAll()`: deactivates every member. -/
def ObjectPool.releaseAll (s : PoolState) : PoolState :=
  { s with pool := s.pool.map (fun o => { o with active := false }) }

/-- Embedding of `ObjectPool.getTotalCount()`. -/
def getTotalCount (s : PoolState) : Nat :=
  s.pool.length

/-- One public pool operation, for reasoning about arbitrary call sequences.
`update`'s `deltaTime` argument does not influence the pool structure and is
kept as a rational payload for faithfulness. -/
inductive PoolOp where
  | get : PoolOp
  | update (dt : ℚ) : PoolOp
  | releaseAll : PoolOp

def applyPoolOp (s : PoolState) : PoolOp → PoolState
  | PoolOp.get => stepGet s
  | PoolOp.update _ => ObjectPool.update s
  | PoolOp.releaseAll => ObjectPool.releaseAll s

def runPool (s : PoolState) : List PoolOp → PoolState
  | [] => s
  | op :: ops => runPool (applyPoolOp s op) ops

/-! #### Helper lemmas about the pool scan -/

theorem afi_all_active (l : List PoolObj) (h : ∀ x ∈ l, x.active = true) :
    activateFirstInactive l = none := by
  induction l with
  | nil => rfl
  | cons o rest ih =>
    have ho : o.active = true := h o (List.mem_cons_self o rest)
    have hrest : activateFirstInactive rest = none :=
      ih (fun x hx => h x (List.mem_cons_of_mem o hx))
    simp [activateFirstInactive, ho, hrest]

theorem afi_split (l1 : List PoolObj) (o : PoolObj) (l2 : List PoolObj)
    (h1 : ∀ x ∈ l1, x.active = true) (ho : o.active = false) :
    activateFirstInactive (l1 ++ o :: l2) =
      some ({ o with active := true }, l1 ++ { o with active := true } :: l2) := by
  induction l1 with
  | nil => simp [activateFirstInactive, ho]
  | cons a rest ih =>
    have ha : a.active = true := h1 a (List.mem_cons_self a rest)
    have := ih (fun x hx => h1 x (List.mem_cons_of_mem a hx))
    simp [activateFirstInactive, ha, this]

theorem afi_length (l l' : List PoolObj) (r : PoolObj)
    (h : activateFirstInactive l = some (r, l')) : l'.length = l.length := by
  induction l generalizing l' r with
  | nil => simp [activateFirstInactive] at h
  | cons o rest ih =>
    by_cases ho : o.active
    · rcases hr : activateFirstInactive rest with _ | ⟨r', rest'⟩
      · simp [activateFirstInactive, ho, hr] at h
      · simp [activateFirstInactive, ho, hr] at h
        rcases h with ⟨-, h2⟩
        subst h2
        simp [ih rest' r' hr]
    · simp [activateFirstInactive, ho] at h
      rcases h with ⟨-, h2⟩
      subst h2
      simp

/-- Objects produced by an activation-flag rewrite that is already in force. -/
theorem activate_eq_self (o : PoolObj) (h : o.active = true) :
    ({ o with active := true } : PoolObj) = o := by
  cases o
  simp_all

/-! #### Closed form of the pool state during the growth phase

After `j ≤ maxSize` calls to `get()` on a freshly constructed pool, the pool
holds ids `0 … j-1` active (in order) followed by the still-untouched
pre-populated ids `j … initialSize-1` inactive. -/

def poolShape (n0 j : Nat) : List PoolObj :=
  (List.range j).map (fun i => { id := i, active := true }) ++
    (List.range' j (n0 - j)).map (fun i => { id := i, active := false })

theorem poolShape_zero (n0 : Nat) : poolShape n0 0 = (poolInit n0 0).pool := by
  simp [poolShape, poolInit, List.range_eq_range']

theorem get_step (n0 m j : Nat) (hj : j < m) :
    ObjectPool.get { pool := poolShape n0 j, created := max n0 j, maxSize := m } =
      some ({ id := j, active := true },
        { pool := poolShape n0 (j + 1), created := max n0 (j + 1), maxSize := m }) := by
  rcases lt_or_le j n0 with hjn | hnj
  · -- still an inactive pre-populated member: it is activated in place
    have hsplit : (List.range' j (n0 - j)).map
        (fun i => ({ id := i, active := false } : PoolObj)) =
        { id := j, active := false } ::
          (List.range' (j + 1) (n0 - (j + 1))).map
            (fun i => ({ id := i, active := false } : PoolObj)) := by
      have : n0 - j = (n0 - (j + 1)) + 1 := by omega
      rw [this, List.range'_succ]
      simp
    have hactives : ∀ x ∈ (List.range j).map
        (fun i => ({ id := i, active := true } : PoolObj)), x.active = true := by
      intro x hx
      rcases List.mem_map.mp hx with ⟨i, -, rfl⟩
      rfl
    have hafi := afi_split ((List.range j).map (fun i => { id := i, active := true }))
      { id := j, active := false }
      ((List.range' (j + 1) (n0 - (j + 1))).map (fun i => { id := i, active := false }))
      hactives rfl
    have hmax : max n0 j = n0 := max_eq_left (le_of_lt hjn)
    have hmax' : max n0 (j + 1) = n0 := max_eq_left hjn
    simp only [ObjectPool.get, poolShape, hsplit, hafi, hmax, hmax']
    simp [List.range_succ]
  · -- every member is active: a fresh instance is constructed and appended
    have hempty : n0 - j = 0 := by omega
    have hpool : poolShape n0 j =
        (List.range j).map (fun i => ({ id := i, active := true } : PoolObj)) := by
      simp [poolShape, hempty]
    have hall : ∀ x ∈ poolShape n0 j, x.active = true := by
      intro x hx
      rw [hpool] at hx
      rcases List.mem_map.mp hx with ⟨i, -, rfl⟩
      rfl
    have hafi := afi_all_active _ hall
    have hlen : (poolShape n0 j).length = j := by simp [hpool]
    have hmax : max n0 j = j := max_eq_right hnj
    have hmax' : max n0 (j + 1) = j + 1 := max_eq_right (le_trans hnj (Nat.le_succ j))
    simp only [ObjectPool.get, hafi, hlen, hmax, hmax', if_pos hj]
    rw [hpool]
    simp [poolShape, List.range_succ, Nat.sub_eq_zero_of_le (le_trans hnj (Nat.le_succ j))]

theorem iterGet_closed (n0 m : Nat) :
    ∀ j, j ≤ m → iterGet (poolInit n0 m) j =
      { pool := poolShape n0 j, created := max n0 j, maxSize := m } := by
  intro j
  induction j with
  | zero =>
    intro _
    simp [iterGet, poolInit, poolShape, List.range_eq_range']
  | succ j ih =>
    intro hj
    have hstate := ih (le_of_lt (Nat.lt_of_succ_le hj))
    have hstep := get_step n0 m j (Nat.lt_of_succ_le hj)
    simp [iterGet, hstate, stepGet, hstep]

theorem retGet_growth (n0 m j : Nat) (hj : j < m) :
    retGet (iterGet (poolInit n0 m) j) = some { id := j, active := true } := by
  rw [iterGet_closed n0 m j (le_of_lt hj)]
  simp [retGet, get_step n0 m j hj]

/-! #### The saturated phase: FIFO rotation once the pool is full -/

/-- A pool whose every slot is active and whose size equals `maxSize`. -/
def Saturated (m : Nat) (s : PoolState) : Prop :=
  (∀ x ∈ s.pool, x.active = true) ∧ s.pool.length = m ∧ s.maxSize = m

theorem get_rotate (s : PoolState) (o : PoolObj) (rest : List PoolObj)
    (hpool : s.pool = o :: rest) (hact : ∀ x ∈ s.pool, x.active = true)
    (hlen : ¬ s.pool.length < s.maxSize) :
    ObjectPool.get s = some (o, { s with pool := rest ++ [o] }) := by
  have hafi : activateFirstInactive s.pool = none := afi_all_active _ hact
  have ho : o.active = true := hact o (by rw [hpool]; exact List.mem_cons_self o rest)
  have hself := activate_eq_self o ho
  rw [hpool] at hafi hlen
  simp only [ObjectPool.get, hpool, hafi, if_neg hlen, hself]

theorem stepGet_saturated (m : Nat) (hm : 1 ≤ m) (s : PoolState) (h : Saturated m s) :
    Saturated m (stepGet s) ∧ (stepGet s).created = s.created := by
  obtain ⟨hact, hlen, hmax⟩ := h
  obtain ⟨o, rest, hpool⟩ : ∃ o rest, s.pool = o :: rest := by
    rcases hp : s.pool with _ | ⟨o, rest⟩
    · rw [hp] at hlen; simp at hlen; omega
    · exact ⟨o, rest, rfl⟩
  have hnotlt : ¬ s.pool.length < s.maxSize := by rw [hlen, hmax]; omega
  have hget := get_rotate s o rest hpool hact hnotlt
  have hstep : stepGet s = { s with pool := rest ++ [o] } := by
    simp [stepGet, hget]
  refine ⟨⟨?_, ?_, ?_⟩, ?_⟩
  · intro x hx
    rw [hstep] at hx
    simp only at hx
    rcases List.mem_append.mp hx with hx | hx
    · exact hact x (by rw [hpool]; exact List.mem_cons_of_mem o hx)
    · rw [List.mem_singleton.mp hx]
      exact hact o (by rw [hpool]; exact List.mem_cons_self o rest)
  · rw [hstep]
    simp only
    rw [hpool] at hlen
    simp at hlen ⊢
    omega
  · rw [hstep]
    exact hmax
  · rw [hstep]

theorem iterGet_saturated (m : Nat) (hm : 1 ≤ m) (s : PoolState) (h : Saturated m s) :
    ∀ r, Saturated m (iterGet s r) ∧ (iterGet s r).created = s.created := by
  intro r
  induction r with
  | zero => exact ⟨h, rfl⟩
  | succ r ih =>
    obtain ⟨hsat, hcreated⟩ := ih
    obtain ⟨hsat', hcreated'⟩ := stepGet_saturated m hm (iterGet s r) hsat
    exact ⟨hsat', by rw [iterGet, hcreated', hcreated]⟩

theorem iterGet_add (s : PoolState) (a b : Nat) :
    iterGet s (a + b) = iterGet (iterGet s a) b := by
  induction b with
  | zero => rfl
  | succ b ih => rw [← Nat.add_assoc, iterGet, iterGet, ih]

theorem saturated_at_max (n0 m : Nat) (h0 : n0 ≤ m) :
    Saturated m (iterGet (poolInit n0 m) m) ∧ (iterGet (poolInit n0 m) m).created = m := by
  rw [iterGet_closed n0 m m le_rfl]
  have hshape : poolShape n0 m =
      (List.range m).map (fun i => ({ id := i, active := true } : PoolObj)) := by
    simp [poolShape, Nat.sub_eq_zero_of_le h0]
  refine ⟨⟨?_, ?_, rfl⟩, ?_⟩
  · intro x hx
    rw [hshape] at hx
    rcases List.mem_map.mp hx with ⟨i, -, rfl⟩
    rfl
  · simp [hshape]
  · simp [max_eq_right h0]

theorem retGet_rotate (s : PoolState) (o : PoolObj) (rest : List PoolObj)
    (hpool : s.pool = o :: rest) (hact : ∀ x ∈ s.pool, x.active = true)
    (hlen : ¬ s.pool.length < s.maxSize) : retGet s = some o := by
  simp [retGet, get_rotate s o rest hpool hact hlen]

theorem retGet_at_max (n0 m : Nat) (h0 : n0 ≤ m) (hm : 1 ≤ m) :
    retGet (iterGet (poolInit n0 m) m) = some { id := 0, active := true } := by
  rw [iterGet_closed n0 m m le_rfl]
  obtain ⟨k, rfl⟩ : ∃ k, m = k + 1 := ⟨m - 1, by omega⟩
  have hshape : poolShape n0 (k + 1) =
      { id := 0, active := true } ::
        ((List.range k).map Nat.succ).map (fun i => ({ id := i, active := true } : PoolObj)) := by
    simp only [poolShape, Nat.sub_eq_zero_of_le h0, List.range'_zero, List.map_nil,
      List.append_nil, List.range_succ_eq_map, List.map_cons]
  refine retGet_rotate _ _ _ hshape ?_ ?_
  · intro x hx
    simp only at hx
    rw [hshape, List.mem_cons] at hx
    rcases hx with rfl | hx
    · rfl
    · rcases List.mem_map.mp hx with ⟨i, -, rfl⟩
      rfl
  · simp only
    rw [hshape]
    simp [max_eq_right h0]

/-- Claim C1: `ObjectPool.get()` activates the first inactive member in
insertion order; otherwise constructs and appends while the pool is below
`maxSize`; otherwise recycles index 0 and rotates it to the end (the
embedding `ObjectPool.get` is exactly this policy).  Consequently, for a
pool with `initialSize ≤ maxSize` and `maxSize ≥ 1`, over `maxSize + 5`
consecutive `get()` calls with no intervening `deactivate` the number of
constructed instances never exceeds `maxSize`, and the `(maxSize+1)`-th
call returns the originally-first-activated instance (the instance the
first call returned). -/
theorem objectPool_get_policy_fifo (n0 m : Nat) (h0 : n0 ≤ m) (hm : 1 ≤ m) :
    (∀ j, j ≤ m + 5 → (iterGet (poolInit n0 m) j).created ≤ m) ∧
    retGet (iterGet (poolInit n0 m) m) = retGet (iterGet (poolInit n0 m) 0) ∧
    retGet (iterGet (poolInit n0 m) 0) = some { id := 0, active := true } := by
  obtain ⟨hsat, hcm⟩ := saturated_at_max n0 m h0
  refine ⟨?_, ?_, ?_⟩
  · intro j hj
    rcases le_or_lt j m with h | h
    · rw [iterGet_closed n0 m j h]
      exact max_le h0 h
    · obtain ⟨r, rfl⟩ : ∃ r, j = m + r := ⟨j - m, by omega⟩
      rw [iterGet_add]
      rw [(iterGet_saturated m hm _ hsat r).2, hcm]
  · rw [retGet_at_max n0 m h0 hm, retGet_growth n0 m 0 hm]
  · exact retGet_growth n0 m 0 hm

theorem objectPool_get_policy_fifo_witness :
    (2 ≤ 3 ∧ 1 ≤ 3) ∧
    ((∀ j, j ≤ 3 + 5 → (iterGet (poolInit 2 3) j).created ≤ 3) ∧
      retGet (iterGet (poolInit 2 3) 3) = retGet (iterGet (poolInit 2 3) 0) ∧
      retGet (iterGet (poolInit 2 3) 0) = some { id := 0, active := true }) :=
  ⟨⟨by decide, by decide⟩, objectPool_get_policy_fifo 2 3 (by decide) (by decide)⟩

/-! #### Claim C2: the pool size never exceeds `maxSize`

The constructor itself does not clamp: it pushes `initialSize` fresh
instances unconditionally, so with `initialSize > maxSize` the invariant is
already broken immediately after construction.  Bounded-ness holds exactly
when `initialSize ≤ maxSize`. -/

/-- Claim C2 counterexample: `new ObjectPool(factory, 2, 1)` holds two
constructed instances immediately after construction, exceeding
`maxSize = 1`, because the constructor pre-populates `initialSize` members
without clamping against `maxSize`. -/
theorem objectPool_bound_counterexample :
    (poolInit 2 1).maxSize = 1 ∧ getTotalCount (poolInit 2 1) = 2 := by
  decide

theorem stepGet_inv (s : PoolState) (h : s.pool.length ≤ s.maxSize) :
    (stepGet s).pool.length ≤ s.maxSize ∧ (stepGet s).maxSize = s.maxSize := by
  rcases hafi : activateFirstInactive s.pool with _ | ⟨r, pool'⟩
  · by_cases hlt : s.pool.length < s.maxSize
    · have hstep : stepGet s =
          { s with pool := s.pool ++ [{ id := s.created, active := true }]
                   created := s.created + 1 } := by
        simp [stepGet, ObjectPool.get, hafi, if_pos hlt]
      rw [hstep]
      refine ⟨?_, rfl⟩
      simp only [List.length_append, List.length_cons, List.length_nil]
      omega
    · rcases hp : s.pool with _ | ⟨o, rest⟩
      · have hlt' : ¬ 0 < s.maxSize := by rw [hp] at hlt; simpa using hlt
        have hstep : stepGet s = s := by
          simp [stepGet, ObjectPool.get, activateFirstInactive, hp, hlt']
        rw [hstep]
        exact ⟨h, rfl⟩
      · rw [hp] at hlt hafi
        have hlt' : ¬ rest.length + 1 < s.maxSize := by simpa using hlt
        have hstep : stepGet s =
            { s with pool := rest ++ [{ o with active := true }] } := by
          simp [stepGet, ObjectPool.get, hafi, hp, hlt']
        rw [hstep]
        refine ⟨?_, rfl⟩
        simp only [List.length_append, List.length_cons, List.length_nil]
        rw [hp] at h
        simp only [List.length_cons] at h
        omega
  · have hstep : stepGet s = { s with pool := pool' } := by
      simp [stepGet, ObjectPool.get, hafi]
    rw [hstep]
    exact ⟨by simp only; rw [afi_length s.pool pool' r hafi]; exact h, rfl⟩

theorem applyPoolOp_inv (s : PoolState) (op : PoolOp) (h : s.pool.length ≤ s.maxSize) :
    (applyPoolOp s op).pool.length ≤ (applyPoolOp s op).maxSize ∧
      (applyPoolOp s op).maxSize = s.maxSize := by
  cases op with
  | get =>
    obtain ⟨h1, h2⟩ := stepGet_inv s h
    refine ⟨?_, h2⟩
    show (stepGet s).pool.length ≤ (stepGet s).maxSize
    rw [h2]
    exact h1
  | update dt =>
    refine ⟨?_, rfl⟩
    show (ObjectPool.update s).pool.length ≤ (ObjectPool.update s).maxSize
    simpa [ObjectPool.update] using h
  | releaseAll =>
    refine ⟨?_, rfl⟩
    show (ObjectPool.releaseAll s).pool.length ≤ (ObjectPool.releaseAll s).maxSize
    simpa [ObjectPool.releaseAll] using h

theorem runPool_inv (ops : List PoolOp) :
    ∀ s : PoolState, s.pool.length ≤ s.maxSize →
      (runPool s ops).pool.length ≤ (runPool s ops).maxSize ∧
        (runPool s ops).maxSize = s.maxSize := by
  induction ops with
  | nil => exact fun s h => ⟨h, rfl⟩
  | cons op ops ih =>
    intro s h
    obtain ⟨h1, h2⟩ := applyPoolOp_inv s op h
    obtain ⟨g1, g2⟩ := ih (applyPoolOp s op) h1
    exact ⟨g1, by rw [runPool, g2, h2]⟩

/-- Claim C2 (amended): provided the pool is constructed with
`initialSize ≤ maxSize`, after any sequence of `get()`, `update(dt)` and
`releaseAll()` calls — including immediately after construction — the
number of constructed instances held by the pool (`getTotalCount()`) is at
most `maxSize`.  (The unamended claim, quantified over all `initialSize`,
fails: see the counterexample.) -/
theorem objectPool_bound_amended (n0 m : Nat) (h0 : n0 ≤ m) (ops : List PoolOp) :
    getTotalCount (runPool (poolInit n0 m) ops) ≤ m := by
  have hinit : (poolInit n0 m).pool.length ≤ (poolInit n0 m).maxSize := by
    simpa [poolInit] using h0
  obtain ⟨h1, h2⟩ := runPool_inv ops (poolInit n0 m) hinit
  rw [getTotalCount]
  calc (runPool (poolInit n0 m) ops).pool.length
      ≤ (runPool (poolInit n0 m) ops).maxSize := h1
    _ = (poolInit n0 m).maxSize := h2
    _ = m := rfl

theorem objectPool_bound_amended_witness :
    2 ≤ 3 ∧
      getTotalCount (runPool (poolInit 2 3)
        [PoolOp.get, PoolOp.get, PoolOp.update 1, PoolOp.get, PoolOp.get,
          PoolOp.releaseAll, PoolOp.get]) ≤ 3 :=
  ⟨by decide, objectPool_bound_amended 2 3 (by decide) _⟩

/-! ### Ship stamina / boost state machine (`src/entities/Ship.ts`)

The fields of `Ship` that the stamina machine reads and writes: `stamina`
(initially `1.0`), `isBoosting` (initially `false`) and the four
`movementDirection` flags.  `Ship.update(dt)` calls `applyBuoyancy`,
`handleMovement`, `updateTransform`, `applyOrientation` and
`updateStamina(dt)`; only the last touches these fields, so an `update`
operation is embedded as `updateStamina`.  JS numbers are modelled by `ℚ`
to keep the comparisons executable. -/

structure MovementFlags where
  forward : Bool
  backward : Bool
  left : Bool
  right : Bool
deriving DecidableEq, Repr

structure VesselState where
  stamina : ℚ
  isBoosting : Bool
  movementDirection : MovementFlags
deriving DecidableEq, Repr

def staminaDrainRate : ℚ := 0.2

def staminaRegenRate : ℚ := 0.1

/-- Initial field values of a freshly constructed `Ship`. -/
def vesselInit : VesselState :=
  { stamina := 1
    isBoosting := false
    movementDirection := { forward := false, backward := false, left := false, right := false } }

/-- Embedding of `Ship.updateStamina(deltaTime)`: boosting while moving forward drains
stamina (clamped below at 0, and boost is disabled once stamina ≤ 0);
otherwise stamina regenerates (clamped above at 1). -/
def Ship.updateStamina (s : VesselState) (deltaTime : ℚ) : VesselState :=
  if s.isBoosting && s.movementDirection.forward then
    if max 0 (s.stamina - staminaDrainRate * deltaTime) ≤ 0 then
      { s with stamina := max 0 (s.stamina - staminaDrainRate * deltaTime)
               isBoosting := false }
    else
      { s with stamina := max 0 (s.stamina - staminaDrainRate * deltaTime) }
  else
    { s with stamina := min 1 (s.stamina + staminaRegenRate * deltaTime) }

/-- Embedding of `Ship.setBoost(active)`: `this.isBoosting = active && this.stamina > 0.1`. -/
def Ship.setBoost (s : VesselState) (active : Bool) : VesselState :=
  { s with isBoosting := active && (if (0.1 : ℚ) < s.stamina then true else false) }

inductive MoveDir where
  | forward | backward | left | right
deriving DecidableEq, Repr

/-- Embedding of `Ship.setMovementDirection(direction, active)`. -/
def Ship.setMovementDirection (s : VesselState) (d : MoveDir) (active : Bool) : VesselState :=
  { s with movementDirection :=
    match d with
    | MoveDir.forward => { s.movementDirection with forward := active }
    | MoveDir.backward => { s.movementDirection with backward := active }
    | MoveDir.left => { s.movementDirection with left := active }
    | MoveDir.right => { s.movementDirection with right := active } }

inductive VesselOp where
  | update (dt : ℚ)
  | setBoost (active : Bool)
  | setMovementDirection (d : MoveDir) (active : Bool)

/-- Side condition of a call sequence: every `update` gets a non-negative `dt`. -/
def VesselOp.dtNonneg : VesselOp → Prop
  | VesselOp.update dt => 0 ≤ dt
  | VesselOp.setBoost _ => True
  | VesselOp.setMovementDirection _ _ => True

def applyVesselOp (s : VesselState) : VesselOp → VesselState
  | VesselOp.update dt => Ship.updateStamina s dt
  | VesselOp.setBoost a => Ship.setBoost s a
  | VesselOp.setMovementDirection d a => Ship.setMovementDirection s d a

def runVessel (s : VesselState) : List VesselOp → VesselState
  | [] => s
  | op :: ops => runVessel (applyVesselOp s op) ops

theorem applyVesselOp_stamina_bounds (s : VesselState) (op : VesselOp)
    (hop : op.dtNonneg) (h0 : 0 ≤ s.stamina) (h1 : s.stamina ≤ 1) :
    0 ≤ (applyVesselOp s op).stamina ∧ (applyVesselOp s op).stamina ≤ 1 := by
  cases op with
  | update dt =>
    have hdt : 0 ≤ dt := hop
    have hdrain : 0 ≤ staminaDrainRate * dt := by
      have : (0 : ℚ) ≤ staminaDrainRate := by norm_num [staminaDrainRate]
      exact mul_nonneg this hdt
    have hregen : 0 ≤ staminaRegenRate * dt := by
      have : (0 : ℚ) ≤ staminaRegenRate := by norm_num [staminaRegenRate]
      exact mul_nonneg this hdt
    show 0 ≤ (Ship.updateStamina s dt).stamina ∧ (Ship.updateStamina s dt).stamina ≤ 1
    simp only [Ship.updateStamina]
    split_ifs with hb hz
    · exact ⟨le_max_left 0 _, max_le (by norm_num) (by linarith)⟩
    · exact ⟨le_max_left 0 _, max_le (by norm_num) (by linarith)⟩
    · exact ⟨le_min (by linarith) (by linarith), min_le_left 1 _⟩
  | setBoost a => exact ⟨h0, h1⟩
  | setMovementDirection d a => exact ⟨h0, h1⟩

theorem runVessel_stamina_bounds (ops : List VesselOp) :
    ∀ s : VesselState, (∀ op ∈ ops, VesselOp.dtNonneg op) →
      0 ≤ s.stamina → s.stamina ≤ 1 →
      0 ≤ (runVessel s ops).stamina ∧ (runVessel s ops).stamina ≤ 1 := by
  induction ops with
  | nil => exact fun s _ h0 h1 => ⟨h0, h1⟩
  | cons op ops ih =>
    intro s hdt h0 h1
    obtain ⟨g0, g1⟩ := applyVesselOp_stamina_bounds s op
      (hdt op (List.mem_cons_self op ops)) h0 h1
    exact ih (applyVesselOp s op) (fun o ho => hdt o (List.mem_cons_of_mem op ho)) g0 g1

/-- Claim C4: starting from stamina = 1, for every sequence of `update`
calls with non-negative `deltaTime` and arbitrary `setBoost` /
`setMovementDirection` calls, the stamina stays in `[0, 1]` (this covers
the state after every step, since every intermediate state is the final
state of a prefix of the sequence). -/
theorem stamina_in_unit_interval (ops : List VesselOp)
    (hdt : ∀ op ∈ ops, VesselOp.dtNonneg op) :
    0 ≤ (runVessel vesselInit ops).stamina ∧ (runVessel vesselInit ops).stamina ≤ 1 :=
  runVessel_stamina_bounds ops vesselInit hdt (by norm_num [vesselInit]) (by norm_num [vesselInit])

theorem stamina_in_unit_interval_witness :
    (∀ op ∈ [VesselOp.setMovementDirection MoveDir.forward true, VesselOp.setBoost true,
        VesselOp.update 1, VesselOp.setBoost false, VesselOp.update 2],
      VesselOp.dtNonneg op) ∧
    (0 ≤ (runVessel vesselInit
        [VesselOp.setMovementDirection MoveDir.forward true, VesselOp.setBoost true,
          VesselOp.update 1, VesselOp.setBoost false, VesselOp.update 2]).stamina ∧
      (runVessel vesselInit
        [VesselOp.setMovementDirection MoveDir.forward true, VesselOp.setBoost true,
          VesselOp.update 1, VesselOp.setBoost false, VesselOp.update 2]).stamina ≤ 1) := by
  have hdt : ∀ op ∈ [VesselOp.setMovementDirection MoveDir.forward true, VesselOp.setBoost true,
      VesselOp.update 1, VesselOp.setBoost false, VesselOp.update 2], VesselOp.dtNonneg op := by
    intro op hop
    fin_cases hop <;> simp [VesselOp.dtNonneg]
  exact ⟨hdt, stamina_in_unit_interval _ hdt⟩

/-! #### Claim C5: when is boosting possible at low stamina?

`setBoost(true)` is indeed refused at `stamina ≤ 0.1`, but `updateStamina`
only clears the flag once stamina has drained all the way to `0`, so a
vessel that started boosting above the threshold keeps boosting while
`0 < stamina ≤ 0.1`. -/

/-- Claim C5 counterexample: start at full stamina, hold forward, request
boost (granted at stamina 1), then update for 4.5 seconds: stamina drains
to exactly 0.1 ≤ 0.1 while the boost flag is still set — the vessel is
boosting with stamina at the threshold. -/
theorem boost_low_stamina_counterexample :
    ((runVessel vesselInit [VesselOp.setMovementDirection MoveDir.forward true,
        VesselOp.setBoost true, VesselOp.update 4.5]).isBoosting = true) ∧
    (runVessel vesselInit [VesselOp.setMovementDirection MoveDir.forward true,
        VesselOp.setBoost true, VesselOp.update 4.5]).stamina ≤ 0.1 := by
  norm_num [runVessel, applyVesselOp, vesselInit, Ship.updateStamina, Ship.setBoost,
    Ship.setMovementDirection, staminaDrainRate, staminaRegenRate, max_def, min_def]

theorem applyVesselOp_boost_inv (s : VesselState) (op : VesselOp) (hop : op.dtNonneg)
    (hI : s.isBoosting = true → 0 < s.stamina) :
    (applyVesselOp s op).isBoosting = true → 0 < (applyVesselOp s op).stamina := by
  cases op with
  | update dt =>
    have hdt : 0 ≤ dt := hop
    show (Ship.updateStamina s dt).isBoosting = true → 0 < (Ship.updateStamina s dt).stamina
    simp only [Ship.updateStamina]
    split_ifs with hb hz
    · intro hfalse
      simp at hfalse
    · intro _
      push_neg at hz
      exact hz
    · intro hbst
      have hs : 0 < s.stamina := hI hbst
      have hreg : 0 ≤ staminaRegenRate * dt :=
        mul_nonneg (by norm_num [staminaRegenRate]) hdt
      exact lt_min (by norm_num) (by linarith)
  | setBoost a =>
    show (Ship.setBoost s a).isBoosting = true → 0 < (Ship.setBoost s a).stamina
    simp only [Ship.setBoost]
    split_ifs with hc
    · intro _
      have h01 : (0 : ℚ) < 0.1 := by norm_num
      exact h01.trans hc
    · intro h
      simp at h
  | setMovementDirection d a => exact fun h => hI h

theorem runVessel_boost_inv (ops : List VesselOp) :
    ∀ s : VesselState, (∀ op ∈ ops, VesselOp.dtNonneg op) →
      (s.isBoosting = true → 0 < s.stamina) →
      ((runVessel s ops).isBoosting = true → 0 < (runVessel s ops).stamina) := by
  induction ops with
  | nil => exact fun s _ h => h
  | cons op ops ih =>
    intro s hdt hI
    exact ih (applyVesselOp s op) (fun o ho => hdt o (List.mem_cons_of_mem op ho))
      (applyVesselOp_boost_inv s op (hdt op (List.mem_cons_self op ops)) hI)

/-- Claim C5 (amended): a boost request is denied whenever stamina ≤ 0.1 —
for every vessel state with `stamina ≤ 0.1`, `setBoost(true)` leaves the
boost flag `false`; and the vessel is never boosting with stamina = 0 (the
flag is cleared exactly when drain reaches 0).  The original claim's
stronger clause — never boosting while stamina ≤ 0.1 — fails: a boost
granted above the threshold persists while `0 < stamina ≤ 0.1` (see the
counterexample). -/
theorem boost_denied_amended :
    (∀ s : VesselState, s.stamina ≤ 0.1 → (Ship.setBoost s true).isBoosting = false) ∧
    (∀ ops : List VesselOp, (∀ op ∈ ops, VesselOp.dtNonneg op) →
      (runVessel vesselInit ops).isBoosting = true → 0 < (runVessel vesselInit ops).stamina) := by
  constructor
  · intro s h
    simp only [Ship.setBoost]
    rw [if_neg (not_lt.mpr h)]
    simp
  · intro ops hdt
    refine runVessel_boost_inv ops vesselInit hdt ?_
    intro h
    simp [vesselInit] at h

theorem boost_denied_amended_witness :
    (({ stamina := 0.1, isBoosting := false,
        movementDirection :=
          { forward := false, backward := false, left := false, right := false } } :
        VesselState).stamina ≤ 0.1 ∧
      (Ship.setBoost
        { stamina := 0.1, isBoosting := false,
          movementDirection :=
            { forward := false, backward := false, left := false, right := false } }
        true).isBoosting = false) ∧
    ((∀ op ∈ [VesselOp.setBoost true], VesselOp.dtNonneg op) ∧
      ((runVessel vesselInit [VesselOp.setBoost true]).isBoosting = true →
        0 < (runVessel vesselInit [VesselOp.setBoost true]).stamina)) := by
  have hdt : ∀ op ∈ [VesselOp.setBoost true], VesselOp.dtNonneg op := by
    intro op hop
    fin_cases hop
    simp [VesselOp.dtNonneg]
  exact ⟨⟨le_refl _, boost_denied_amended.1 _ (le_refl _)⟩,
    hdt, boost_denied_amended.2 _ hdt⟩

/-! ### Buoyancy submersion ratio and soft height correction

From `Ship.applyBuoyancy` (`src/entities/Ship.ts`):
`depth = waterLevel - (bodyY - halfH)`;
`submerged = Math.max(0, Math.min(1, depth / (halfH * 2)))`;
and the soft correction
`bodyY = THREE.MathUtils.lerp(bodyY, desiredHeight, 0.01)`.
From `Chest.applyBuoyancy` (`src/entities/Chest.ts`): `waterLevel = 0`,
`chestHeight = 6`,
`submergedRatio = Math.max(0, Math.min(1, (waterLevel - (bodyY - chestHeight/2)) / chestHeight))`.
These are pure real-number formulas, modelled over `ℝ`. -/

noncomputable def shipSubmerged (waterLevel bodyY halfH : ℝ) : ℝ :=
  max 0 (min 1 ((waterLevel - (bodyY - halfH)) / (halfH * 2)))

def chestHeight : ℝ := 6

noncomputable def chestSubmergedRatio (bodyY : ℝ) : ℝ :=
  max 0 (min 1 ((0 - (bodyY - chestHeight / 2)) / chestHeight))

/-- Clamp of `x` into `[lo, hi]`, the operation named by the spec's
`clamp((waterLevel − (bodyY − halfHeight)) / (2·halfHeight), 0, 1)`. -/
noncomputable def clampSpec (x lo hi : ℝ) : ℝ := max lo (min hi x)

/-- Claim C3: for every body height `y`, half-height `h > 0` and water
level `w`, the ship's submersion ratio equals
`clamp((w − (y − h)) / (2·h), 0, 1)` and lies in `[0, 1]`; the chest's
(fixed water level 0, half-height 3) likewise — no matter how far above or
below the waterline the body is. -/
theorem submersion_ratio_clamped (w y h : ℝ) (_hh : 0 < h) :
    (shipSubmerged w y h = clampSpec ((w - (y - h)) / (2 * h)) 0 1 ∧
      0 ≤ shipSubmerged w y h ∧ shipSubmerged w y h ≤ 1) ∧
    (chestSubmergedRatio y = clampSpec ((0 - (y - 3)) / (2 * 3)) 0 1 ∧
      0 ≤ chestSubmergedRatio y ∧ chestSubmergedRatio y ≤ 1) := by
  refine ⟨⟨?_, le_max_left 0 _, max_le zero_le_one (min_le_left 1 _)⟩,
    ⟨?_, le_max_left 0 _, max_le zero_le_one (min_le_left 1 _)⟩⟩
  · rw [shipSubmerged, clampSpec, mul_comm h 2]
  · rw [chestSubmergedRatio, clampSpec]
    norm_num [chestHeight]

theorem submersion_ratio_clamped_witness :
    (0 : ℝ) < 1 ∧
      ((shipSubmerged 2 0 1 = clampSpec ((2 - (0 - 1)) / (2 * 1)) 0 1 ∧
        0 ≤ shipSubmerged 2 0 1 ∧ shipSubmerged 2 0 1 ≤ 1) ∧
      (chestSubmergedRatio 0 = clampSpec ((0 - (0 - 3)) / (2 * 3)) 0 1 ∧
        0 ≤ chestSubmergedRatio 0 ∧ chestSubmergedRatio 0 ≤ 1)) :=
  ⟨one_pos, submersion_ratio_clamped 2 0 1 one_pos⟩

/-- Embedding of `THREE.MathUtils.lerp(x, y, t)`, which three.js computes as
`(1 - t) * x + t * y`. -/
noncomputable def mathUtilsLerp (x y t : ℝ) : ℝ := (1 - t) * x + t * y

/-- Soft height correction of `Ship.applyBuoyancy`:
`lerp(bodyY, desiredHeight, 0.01)` with `lerpFactor = 0.01`. -/
noncomputable def softCorrectHeight (bodyY desiredHeight : ℝ) : ℝ :=
  mathUtilsLerp bodyY desiredHeight 0.01

/-- Claim C7: the soft height correction never overshoots and only pulls
toward the target: for every current height `y` and target `d`, the
corrected height lies between `y` and `d` inclusive, and its distance to
the target does not exceed the previous distance. -/
theorem soft_correction_no_overshoot (y d : ℝ) :
    min y d ≤ softCorrectHeight y d ∧ softCorrectHeight y d ≤ max y d ∧
      |softCorrectHeight y d - d| ≤ |y - d| := by
  have hkey : softCorrectHeight y d - d = 0.99 * (y - d) := by
    simp only [softCorrectHeight, mathUtilsLerp]
    ring
  refine ⟨?_, ?_, ?_⟩
  · rcases le_total y d with h | h
    · rw [min_eq_left h]
      simp only [softCorrectHeight, mathUtilsLerp]
      nlinarith
    · rw [min_eq_right h]
      simp only [softCorrectHeight, mathUtilsLerp]
      nlinarith
  · rcases le_total y d with h | h
    · rw [max_eq_right h]
      simp only [softCorrectHeight, mathUtilsLerp]
      nlinarith
    · rw [max_eq_left h]
      simp only [softCorrectHeight, mathUtilsLerp]
      nlinarith
  · rw [hkey, abs_mul, abs_of_nonneg (by norm_num : (0:ℝ) ≤ 0.99)]
    nlinarith [abs_nonneg (y - d)]

/-! ### Gerstner wave field (`src/utils/GerstnerWater.ts`)

An `InternalWave` carries the unit direction `(Dx, Dz)`, the wave number
`k`, the angular frequency `ω` and the amplitude `A`; the field also has a
global `distortionScale` and the accumulated `_time`.  `getHeightAt` sums
`A·sin(k·(D·X) − ω·t)` over the waves and multiplies by the distortion
scale; `getNormalAt` takes symmetric finite differences of `getHeightAt`
at `eps = 0.1` and normalizes `(-dx, 1, -dz)` (the vector's length is at
least 1 here, so three.js' `normalize` is plain division by the length). -/

structure InternalWave where
  Dx : ℝ
  Dz : ℝ
  k : ℝ
  ω : ℝ
  A : ℝ

/-- Embedding of `GerstnerWater.getHeightAt(x, z)` at simulation time `time`. -/
noncomputable def getHeightAt (waves : List InternalWave) (distortionScale time x z : ℝ) : ℝ :=
  (waves.map (fun w => w.A * Real.sin (w.k * (w.Dx * x + w.Dz * z) - w.ω * time))).sum *
    distortionScale

/-- Embedding of `GerstnerWater.getNormalAt(x, z)` at simulation time `time`. -/
noncomputable def getNormalAt (waves : List InternalWave) (distortionScale time x z : ℝ) :
    ℝ × ℝ × ℝ :=
  let eps : ℝ := 0.1
  let hL := getHeightAt waves distortionScale time (x - eps) z
  let hR := getHeightAt waves distortionScale time (x + eps) z
  let hD := getHeightAt waves distortionScale time x (z - eps)
  let hU := getHeightAt waves distortionScale time x (z + eps)
  let dx := (hR - hL) / (2 * eps)
  let dz := (hU - hD) / (2 * eps)
  let len := Real.sqrt ((-dx) ^ 2 + 1 ^ 2 + (-dz) ^ 2)
  (-dx / len, 1 / len, -dz / len)

theorem wave_sum_abs_le (waves : List InternalWave) (time x z : ℝ)
    (hA : ∀ w ∈ waves, 0 ≤ w.A) :
    |(waves.map (fun w => w.A * Real.sin (w.k * (w.Dx * x + w.Dz * z) - w.ω * time))).sum| ≤
      (waves.map (fun w => w.A)).sum := by
  induction waves with
  | nil => simp
  | cons w ws ih =>
    simp only [List.map_cons, List.sum_cons]
    have hw : 0 ≤ w.A := hA w (List.mem_cons_self w ws)
    have hterm : |w.A * Real.sin (w.k * (w.Dx * x + w.Dz * z) - w.ω * time)| ≤ w.A := by
      rw [abs_mul, abs_of_nonneg hw]
      calc w.A * |Real.sin (w.k * (w.Dx * x + w.Dz * z) - w.ω * time)|
          ≤ w.A * 1 := mul_le_mul_of_nonneg_left (Real.abs_sin_le_one _) hw
        _ = w.A := mul_one w.A
    calc |w.A * Real.sin (w.k * (w.Dx * x + w.Dz * z) - w.ω * time) +
          (ws.map (fun v => v.A * Real.sin (v.k * (v.Dx * x + v.Dz * z) - v.ω * time))).sum|
        ≤ |w.A * Real.sin (w.k * (w.Dx * x + w.Dz * z) - w.ω * time)| +
          |(ws.map (fun v => v.A * Real.sin (v.k * (v.Dx * x + v.Dz * z) - v.ω * time))).sum| :=
        abs_add _ _
      _ ≤ w.A + (ws.map (fun v => v.A)).sum :=
        add_le_add hterm (ih (fun v hv => hA v (List.mem_cons_of_mem w hv)))

/-- Claim C8: for all `(x, z)` and every simulation time, the absolute
water height is bounded by the distortion scale times the sum of the
component amplitudes (amplitudes and scale being non-negative, as the
constructed wave set has them). -/
theorem heightAt_bounded (waves : List InternalWave) (distortionScale time x z : ℝ)
    (hscale : 0 ≤ distortionScale) (hA : ∀ w ∈ waves, 0 ≤ w.A) :
    |getHeightAt waves distortionScale time x z| ≤
      distortionScale * (waves.map (fun w => w.A)).sum := by
  rw [getHeightAt, abs_mul, abs_of_nonneg hscale, mul_comm]
  exact mul_le_mul_of_nonneg_left (wave_sum_abs_le waves time x z hA) hscale

theorem heightAt_bounded_witness :
    ((0 : ℝ) ≤ 1 ∧
      (∀ w ∈ [({ Dx := 1, Dz := 0, k := 1, ω := 1, A := 1 } : InternalWave)], 0 ≤ w.A)) ∧
    |getHeightAt [{ Dx := 1, Dz := 0, k := 1, ω := 1, A := 1 }] 1 0 0 0| ≤
      1 * ([({ Dx := 1, Dz := 0, k := 1, ω := 1, A := 1 } : InternalWave)].map
        (fun w => w.A)).sum := by
  have hA : ∀ w ∈ [({ Dx := 1, Dz := 0, k := 1, ω := 1, A := 1 } : InternalWave)], 0 ≤ w.A := by
    intro w hw
    rw [List.mem_singleton] at hw
    subst hw
    exact zero_le_one
  exact ⟨⟨zero_le_one, hA⟩, heightAt_bounded _ 1 0 0 0 zero_le_one hA⟩

theorem heightAt_flat (waves : List InternalWave) (distortionScale time x z : ℝ)
    (hA : ∀ w ∈ waves, w.A = 0) :
    getHeightAt waves distortionScale time x z = 0 := by
  rw [getHeightAt]
  have hsum : (waves.map (fun w =>
      w.A * Real.sin (w.k * (w.Dx * x + w.Dz * z) - w.ω * time))).sum = 0 := by
    refine List.sum_eq_zero ?_
    intro a ha
    rcases List.mem_map.mp ha with ⟨w, hw, rfl⟩
    rw [hA w hw, zero_mul]
  rw [hsum, zero_mul]

/-- Claim C9: on a flat wave field (every component amplitude zero),
`getNormalAt` returns exactly the unit up vector `(0, 1, 0)` for all
positions, scales and times: the finite differences of the identically
zero height field vanish and `normalize((0, 1, 0))` is `(0, 1, 0)`. -/
theorem normalAt_flat (waves : List InternalWave) (distortionScale time x z : ℝ)
    (hA : ∀ w ∈ waves, w.A = 0) :
    getNormalAt waves distortionScale time x z = (0, 1, 0) := by
  simp only [getNormalAt,
    heightAt_flat waves distortionScale time (x - 0.1) z hA,
    heightAt_flat waves distortionScale time (x + 0.1) z hA,
    heightAt_flat waves distortionScale time x (z - 0.1) hA,
    heightAt_flat waves distortionScale time x (z + 0.1) hA]
  norm_num

theorem normalAt_flat_witness :
    (∀ w ∈ [({ Dx := 1, Dz := 0, k := 1, ω := 1, A := 0 } : InternalWave)], w.A = 0) ∧
    getNormalAt [{ Dx := 1, Dz := 0, k := 1, ω := 1, A := 0 }] 2 0 0 0 = (0, 1, 0) := by
  have hA : ∀ w ∈ [({ Dx := 1, Dz := 0, k := 1, ω := 1, A := 0 } : InternalWave)], w.A = 0 := by
    intro w hw
    rw [List.mem_singleton] at hw
    subst hw
    rfl
  exact ⟨hA, normalAt_flat _ 2 0 0 0 hA⟩

/-! ### Link-opening bottle trigger (`src/world.ts`, `src/entities/Bottle.ts`)

`World.checkProjectBottles()` runs once per frame: for each bottle whose
`triggered` flag is still false, if the ship is within `bottleDistance`
(20 world units) the flag is set and the bottle's link is opened in a new
tab.  Positions are modelled in `ℚ`; the code compares the Euclidean
distance against the threshold, which (both sides being non-negative) is
equivalent to comparing squared distance against the squared threshold. -/

structure Vec3q where
  x : ℚ
  y : ℚ
  z : ℚ
deriving DecidableEq, Repr

def distSq (a b : Vec3q) : ℚ :=
  (a.x - b.x) ^ 2 + (a.y - b.y) ^ 2 + (a.z - b.z) ^ 2

def bottleDistance : ℚ := 20

structure BottleState where
  triggered : Bool
deriving DecidableEq, Repr

/-- One frame of `World.checkProjectBottles()` for one bottle: the new
bottle state, and whether the open-link side effect fired this frame. -/
def checkProjectBottle (shipPos bottlePos : Vec3q) (b : BottleState) : BottleState × Bool :=
  if b.triggered then (b, false)
  else if distSq shipPos bottlePos < bottleDistance ^ 2 then
    ({ b with triggered := true }, true)
  else (b, false)

/-- Modelled from the spec: `Bottle` (`src/entities/Bottle.ts`) declares the
`triggered` flag but defines no `reset()` method anywhere in the
repository; the spec's Prop contract (§4.3) requires the trigger guard to
be "cleared on reset", so reset is modelled as clearing the flag. -/
def Bottle.reset (_b : BottleState) : BottleState :=
  { triggered := false }

/-- Run of consecutive proximity-check frames between two resets; each
frame supplies the current ship and bottle positions (both drift).
Returns the final bottle state and the number of open-link firings. -/
def runBottleFrames (b : BottleState) : List (Vec3q × Vec3q) → BottleState × Nat
  | [] => (b, 0)
  | f :: fs =>
    let r := checkProjectBottle f.1 f.2 b
    let rest := runBottleFrames r.1 fs
    (rest.1, (if r.2 then 1 else 0) + rest.2)

theorem fires_zero_of_triggered (frames : List (Vec3q × Vec3q)) :
    ∀ b : BottleState, b.triggered = true → (runBottleFrames b frames).2 = 0 := by
  induction frames with
  | nil => intro b _; rfl
  | cons f fs ih =>
    intro b hb
    have hcheck : checkProjectBottle f.1 f.2 b = (b, false) := by
      rw [checkProjectBottle, if_pos hb]
    simp only [runBottleFrames, hcheck]
    simp [ih b hb]

theorem fires_le_one_of_clear (frames : List (Vec3q × Vec3q)) :
    ∀ b : BottleState, b.triggered = false → (runBottleFrames b frames).2 ≤ 1 := by
  induction frames with
  | nil => intro b _; exact Nat.zero_le 1
  | cons f fs ih =>
    intro b hb
    by_cases hnear : distSq f.1 f.2 < bottleDistance ^ 2
    · have hcheck : checkProjectBottle f.1 f.2 b = ({ b with triggered := true }, true) := by
        rw [checkProjectBottle, if_neg (by rw [hb]; exact Bool.false_ne_true), if_pos hnear]
      simp only [runBottleFrames, hcheck]
      simp [fires_zero_of_triggered fs { b with triggered := true } rfl]
    · have hcheck : checkProjectBottle f.1 f.2 b = (b, false) := by
        rw [checkProjectBottle, if_neg (by rw [hb]; exact Bool.false_ne_true), if_neg hnear]
      simp only [runBottleFrames, hcheck]
      simpa using ih b hb

/-- Claim C6: the bottle's `triggered` flag is false immediately after
`reset()` (reset modelled from the spec, since `Bottle` defines none);
once the flag is set the open-link effect never fires again; and from a
cleared flag — i.e. between a reset and the next reset — the effect fires
at most once over every sequence of per-frame proximity checks. -/
theorem bottle_triggers_at_most_once :
    (∀ b : BottleState, (Bottle.reset b).triggered = false) ∧
    (∀ frames : List (Vec3q × Vec3q), ∀ b : BottleState, b.triggered = true →
      (runBottleFrames b frames).2 = 0) ∧
    (∀ frames : List (Vec3q × Vec3q), ∀ b : BottleState, b.triggered = false →
      (runBottleFrames b frames).2 ≤ 1) :=
  ⟨fun _ => rfl, fires_zero_of_triggered, fires_le_one_of_clear⟩

theorem bottle_triggers_at_most_once_witness :
    ((⟨true⟩ : BottleState).triggered = true ∧
      (runBottleFrames ⟨true⟩ [(⟨0, 0, 0⟩, ⟨1, 0, 0⟩)]).2 = 0) ∧
    ((⟨false⟩ : BottleState).triggered = false ∧
      (runBottleFrames ⟨false⟩ [(⟨0, 0, 0⟩, ⟨1, 0, 0⟩), (⟨0, 0, 0⟩, ⟨1, 0, 0⟩)]).2 ≤ 1) :=
  ⟨⟨rfl, bottle_triggers_at_most_once.2.1 [(⟨0, 0, 0⟩, ⟨1, 0, 0⟩)] ⟨true⟩ rfl⟩,
    ⟨rfl, bottle_triggers_at_most_once.2.2
      [(⟨0, 0, 0⟩, ⟨1, 0, 0⟩), (⟨0, 0, 0⟩, ⟨1, 0, 0⟩)] ⟨false⟩ rfl⟩⟩

/-! ### Chest position setter (`src/entities/Chest.ts`)

The `set position(pos)` accessor copies `pos` into the `_position` backing
field, the visual model's position and the physics body's position, zeroes
the body's linear and angular velocity, and applies a fresh random yaw
rotation to the body's and the model's quaternion.  The random quaternion
(from `setFromAxisAngle((0,1,0), random()·2π)`) enters as a parameter. -/

structure Quat4q where
  x : ℚ
  y : ℚ
  z : ℚ
  w : ℚ
deriving DecidableEq, Repr

structure ChestState where
  /-- Backing field `_position`. -/
  positionField : Vec3q
  modelPos : Vec3q
  bodyPos : Vec3q
  bodyVelocity : Vec3q
  bodyAngularVelocity : Vec3q
  bodyQuat : Quat4q
  modelQuat : Quat4q
deriving DecidableEq, Repr

/-- Embedding of the `Chest.position` setter. -/
def Chest.setPosition (c : ChestState) (pos : Vec3q) (randomRotation : Quat4q) : ChestState :=
  { c with
    positionField := pos
    modelPos := pos
    bodyPos := pos
    bodyVelocity := ⟨0, 0, 0⟩
    bodyAngularVelocity := ⟨0, 0, 0⟩
    bodyQuat := randomRotation
    modelQuat := randomRotation }

/-- Claim C10: setting a Chest's position zeroes the physics body's linear
and angular velocity and copies the new position to the backing field, the
visual model and the physics body — so a recycled chest never inherits
residual motion from its previous activation. -/
theorem chest_position_setter_clears_motion (c : ChestState) (pos : Vec3q) (q : Quat4q) :
    (Chest.setPosition c pos q).bodyVelocity = ⟨0, 0, 0⟩ ∧
    (Chest.setPosition c pos q).bodyAngularVelocity = ⟨0, 0, 0⟩ ∧
    (Chest.setPosition c pos q).modelPos = pos ∧
    (Chest.setPosition c pos q).bodyPos = pos ∧
    (Chest.setPosition c pos q).positionField = pos :=
  ⟨rfl, rfl, rfl, rfl, rfl⟩

end Portfolio
